import Mathlib

/-!
# The S3 upload stage of go-gonzo/s3

A shallow embedding of `s3.go`: the configuration validator `checkconfig` and
the pipeline stage returned by `Put`.

The stage talks to collaborators that live outside the repository.  They are
kept abstract and bundled in `Env`:

* `mime.TypeByExtension` and `http.DetectContentType` (Go standard library),
* `Bucket.Put` of the `amz.v1/s3` client, whose outcome may depend on how many
  put-object calls were made before.

Channels and the `select` statement are modelled by the sequence of outcomes
the `select` observes (`Select`), and every effect of the stage is recorded, in
program order, in a trace of `Event`s.  A send on the outbound stream is taken
to complete (a consumer is receiving).
-/

namespace S3

/-! ## Data model -/

/-- Go `error` values are represented by their message. -/
abbrev Error := String

/-- Access policy, `type ACL s3.ACL` (a string type). -/
abbrev ACL := String

def Private : ACL := "private"
def PublicRead : ACL := "public-read"
def PublicReadWrite : ACL := "public-read-write"
def AuthenticatedRead : ACL := "authenticated-read"
def BucketOwnerRead : ACL := "bucket-owner-read"
def BucketOwnerFull : ACL := "bucket-owner-full-control"

/-- Region record, `type Region aws.Region`.  The validator only looks at
`Name`; `S3Endpoint` stands for the remaining endpoint fields. -/
structure Region where
  Name : String
  S3Endpoint : String
deriving DecidableEq, Repr

/-- Configuration of the stage, `type Config struct`. -/
structure Config where
  AccessKey : String
  SecretKey : String
  Region : S3.Region
  Name : String
  Perm : ACL
deriving DecidableEq, Repr

/-! ## Configuration validator -/

/-- The local slice `missing` of `checkconfig` after the five tests. -/
def missingFields (c : Config) : List String :=
  let missing : List String := []
  let missing := if c.AccessKey = "" then missing ++ ["AccessKey"] else missing
  let missing := if c.SecretKey = "" then missing ++ ["SecretKey"] else missing
  let missing := if c.Region.Name = "" then missing ++ ["Region"] else missing
  let missing := if c.Name = "" then missing ++ ["Name"] else missing
  let missing := if c.Perm = "" then missing ++ ["Perm"] else missing
  missing

/-- The validator `checkconfig`: `none` is Go's `nil` error. -/
def checkconfig (c : Config) : Option Error :=
  let missing := missingFields c
  if missing.length ≠ 0 then
    some ("Missing Required Field " ++ String.intercalate ", " missing ++ " ")
  else
    none

/-- The required fields in the order in which `checkconfig` tests them. -/
def requiredFields : List String :=
  ["AccessKey", "SecretKey", "Region", "Name", "Perm"]

/-- Whether the required field called `field` is empty in `c`. -/
def fieldEmpty (c : Config) (field : String) : Bool :=
  if field = "AccessKey" then decide (c.AccessKey = "")
  else if field = "SecretKey" then decide (c.SecretKey = "")
  else if field = "Region" then decide (c.Region.Name = "")
  else if field = "Name" then decide (c.Name = "")
  else if field = "Perm" then decide (c.Perm = "")
  else false

/-- A configuration with every required field populated. -/
def sampleConfig : Config :=
  ⟨"AKIA", "secret", ⟨"us-east-1", "https://s3.amazonaws.com"⟩, "bucket", PublicRead⟩

/-- A configuration missing `SecretKey` and `Name`. -/
def partialConfig : Config :=
  ⟨"AKIA", "", ⟨"us-east-1", "https://s3.amazonaws.com"⟩, "", PublicRead⟩

/-! ## Files, context and collaborators -/

/-- Metadata of an item, `os.FileInfo`. -/
structure FileInfo where
  name : String
  size : Nat
  mode : Nat
  modTime : Nat
  isDir : Bool
deriving DecidableEq, Repr

/-- An item of the pipeline, `gonzo.File`: a reader together with its
`FileInfo()`.  `data` are the bytes the reader yields and `readErr` the error
with which reading ends, if any. -/
structure File where
  info : FileInfo
  data : List Nat
  readErr : Option Error
deriving DecidableEq, Repr

/-- The call `ioutil.ReadAll(file)`: the bytes read and the error. -/
def ReadAll (file : File) : List Nat × Option Error :=
  (file.data, file.readErr)

/-- The call `gonzo.NewFile(ioutil.NopCloser(bytes.NewReader(content)), info)`:
an item over an in-memory reader, which cannot fail. -/
def NewFile (content : List Nat) (info : FileInfo) : File :=
  ⟨info, content, none⟩

/-- Execution context: `err` is what `Err()` reports once `Done()` has fired,
`values` are the annotations attached with `WithValue`. -/
structure Context where
  err : Error
  values : List (String × String)
deriving DecidableEq, Repr

/-- The call `context.WithValue(ctx, key, val)`: a child context that carries
one more annotation and shares cancellation with its parent. -/
def Context.WithValue (ctx : Context) (key val : String) : Context :=
  { ctx with values := (key, val) :: ctx.values }

/-- Credentials, `aws.Auth`. -/
structure Auth where
  AccessKey : String
  SecretKey : String
deriving DecidableEq, Repr

/-- The bucket handle obtained by `s3.New(auth, region).Bucket(name)`. -/
structure Bucket where
  auth : Auth
  region : Region
  name : String
deriving DecidableEq, Repr

/-- The arguments of one `bucket.Put(name, content, contentType, perm)`. -/
structure PutCall where
  bucket : Bucket
  key : String
  body : List Nat
  contentType : String
  perm : ACL
deriving DecidableEq, Repr

/-- The collaborators outside the repository.  `bucketPut n call` is the
error returned by the put-object call `call` when `n` put-object calls were
made before it (`none` is success). -/
structure Env where
  TypeByExtension : String → String
  DetectContentType : List Nat → String
  bucketPut : Nat → PutCall → Option Error

/-- Scan of `filepath.Ext` from the end of the path: `before` holds the
characters not yet visited, last one first, `suffix` those already visited. -/
def extScan : List Char → List Char → List Char
  | [], _ => []
  | ch :: before, suffix =>
    if ch = '/' then []
    else if ch = '.' then '.' :: suffix
    else extScan before (ch :: suffix)

/-- The standard library's `filepath.Ext`: the suffix beginning at the final
dot in the final slash-separated element of the path, empty if there is no
dot. -/
def Ext (path : String) : String :=
  String.mk (extScan path.data.reverse [])

/-- Content type resolution of `Put`: the registry's type for the extension of
the name, and the sniffed type when the registry has none. -/
def contentTypeOf (env : Env) (name : String) (content : List Nat) : String :=
  let contentType := env.TypeByExtension (Ext name)
  if contentType = "" then env.DetectContentType content else contentType

/-! ## The stage -/

/-- One outcome of the `select` of the stage: an item received from the inbound
stream, the inbound stream found closed, or the context found done. -/
inductive Select
  | recv (file : File)
  | closed
  | done
deriving DecidableEq, Repr

/-- The effects of the stage, recorded in program order. -/
inductive Event
  | recv (file : File)
  | readAll (file : File)
  | withValue (key val : String)
  | infof (msg : String)
  | put (call : PutCall) (res : Option Error)
  | send (file : File)
deriving DecidableEq, Repr

/-- How a run of the stage ends: it returns an error (`none` is `nil`), or it
stays suspended in `select` because no further outcome occurs. -/
inductive Outcome
  | returned (err : Option Error)
  | waiting
deriving DecidableEq, Repr

/-- A run of the stage: how it ends, what it did, and the `select` outcomes it
never consumed. -/
structure Run where
  outcome : Outcome
  trace : List Event
  pending : List Select
deriving DecidableEq, Repr

/-- The run `r` with the events `evs` performed before it. -/
def Run.after (evs : List Event) (r : Run) : Run :=
  { r with trace := evs ++ r.trace }

/-- The put-object call `bucket.Put(name, content, contentType, s3.ACL(c.Perm))`
made for the item `file` once its content is read. -/
def callOn (env : Env) (c : Config) (bucket : Bucket) (file : File) : PutCall :=
  let content := (ReadAll file).1
  let name := file.info.name
  ⟨bucket, name, content, contentTypeOf env name content, c.Perm⟩

/-- The `for { select { ... } }` loop of `Put`.  `ctx` is the current context
and `n` the number of put-object calls made so far. -/
def loop (env : Env) (c : Config) (bucket : Bucket) : Context → Nat → List Select → Run
  | _, _, [] => ⟨.waiting, [], []⟩
  | _, _, .closed :: rest => ⟨.returned none, [], rest⟩
  | ctx, _, .done :: rest => ⟨.returned (some ctx.err), [], rest⟩
  | ctx, n, .recv file :: rest =>
    if file.info.isDir then
      (loop env c bucket ctx n rest).after [.recv file]
    else
      match ReadAll file with
      | (_, some err) => ⟨.returned (some err), [.recv file, .readAll file], rest⟩
      | (content, none) =>
        let name := file.info.name
        let contentType := contentTypeOf env name content
        let ctx := ctx.WithValue "Content-Type" contentType
        let call : PutCall := ⟨bucket, name, content, contentType, c.Perm⟩
        match env.bucketPut n call with
        | some err =>
          ⟨.returned (some err),
            [.recv file, .readAll file, .withValue "Content-Type" contentType,
              .infof ("Uploading " ++ name), .put call (some err)], rest⟩
        | none =>
          (loop env c bucket ctx (n + 1) rest).after
            [.recv file, .readAll file, .withValue "Content-Type" contentType,
              .infof ("Uploading " ++ name), .put call none,
              .send (NewFile content file.info)]

/-- The bucket handle `Put` builds from the configuration. -/
def bucketOf (c : Config) : Bucket :=
  let auth : Auth := ⟨c.AccessKey, c.SecretKey⟩
  ⟨auth, c.Region, c.Name⟩

/-- The stage returned by `Put(c)`, run with the context `ctx` and the `select`
outcomes `files`. -/
def Put (env : Env) (c : Config) (ctx : Context) (files : List Select) : Run :=
  match checkconfig c with
  | some err => ⟨.returned (some err), [], files⟩
  | none => loop env c (bucketOf c) ctx 0 files

/-! ## Observations on traces -/

/-- The items sent on the outbound stream, in order. -/
def sends (t : List Event) : List File :=
  t.filterMap fun e => match e with
    | .send file => some file
    | _ => none

/-- The put-object calls made, in order. -/
def puts (t : List Event) : List PutCall :=
  t.filterMap fun e => match e with
    | .put call _ => some call
    | _ => none

/-- The put-object calls that succeeded, in order. -/
def okPuts (t : List Event) : List PutCall :=
  t.filterMap fun e => match e with
    | .put call none => some call
    | _ => none

/-- The items whose content was read, in order. -/
def reads (t : List Event) : List File :=
  t.filterMap fun e => match e with
    | .readAll file => some file
    | _ => none

/-- The items received from the inbound stream, in order. -/
def recvs (t : List Event) : List File :=
  t.filterMap fun e => match e with
    | .recv file => some file
    | _ => none

/-- The put-object call the stage makes for the item `file`. -/
def callFor (env : Env) (c : Config) (file : File) : PutCall :=
  callOn env c (bucketOf c) file

/-- The outbound item the stage makes from the item `file`. -/
def outFor (file : File) : File :=
  NewFile file.data file.info

/-- The items that are not directories. -/
def nonDirs (items : List File) : List File :=
  items.filter fun file => !file.info.isDir

/-- The inbound stream delivering `items` and then closed, with the context
never done. -/
def inbound (items : List File) : List Select :=
  items.map Select.recv ++ [Select.closed]

/-- The events of an item that is uploaded and forwarded. -/
def uploadEvents (env : Env) (c : Config) (bucket : Bucket) (file : File) : List Event :=
  [.recv file, .readAll file,
    .withValue "Content-Type" (contentTypeOf env file.info.name file.data),
    .infof ("Uploading " ++ file.info.name), .put (callOn env c bucket file) none,
    .send (outFor file)]

/-- The events of an item that is skipped (a directory) or uploaded and
forwarded. -/
def itemEvents (env : Env) (c : Config) (bucket : Bucket) (file : File) : List Event :=
  if file.info.isDir then [.recv file] else uploadEvents env c bucket file

/-! ## Invariants of traces -/

/-- The trace `t`, performed after the events `hist`, sends an item only
right after a successful put-object call related to the item by `Q`. -/
def Follows (Q : PutCall → File → Prop) (hist t : List Event) : Prop :=
  ∀ pre f post, t = pre ++ Event.send f :: post →
    ∃ pre' call, hist ++ pre = pre' ++ [Event.put call none] ∧ Q call f

/-- At every point of the trace `t`, performed after `a` put-object calls and
`b` sends, the number of calls is at least the number of sends and at most one
more. -/
def Balanced (a b : Nat) (t : List Event) : Prop :=
  ∀ pre post, t = pre ++ post →
    b + (sends pre).length ≤ a + (puts pre).length ∧
      a + (puts pre).length ≤ b + (sends pre).length + 1

/-- The put-object call `call` is the one the stage makes for an item with the
name and content of `f`, under the configured access policy. -/
def Uploads (env : Env) (c : Config) (b : Bucket) (call : PutCall) (f : File) : Prop :=
  call.bucket = b ∧ call.key = f.info.name ∧ call.body = f.data ∧
    call.contentType = contentTypeOf env f.info.name f.data ∧ call.perm = c.Perm

/-! ## Sample collaborators and items -/

/-- A registry that knows two extensions, a sniffer that knows the JPEG magic
bytes and falls back to the generic binary type, and a store in which every
upload succeeds. -/
def sampleEnv : Env where
  TypeByExtension := fun ext =>
    if ext = ".json" then "application/json"
    else if ext = ".txt" then "text/plain; charset=utf-8"
    else ""
  DetectContentType := fun content =>
    if content.take 3 = [255, 216, 255] then "image/jpeg" else "application/octet-stream"
  bucketPut := fun _ _ => none

/-- The collaborators of `sampleEnv` with a store whose second upload fails. -/
def failingEnv : Env :=
  { sampleEnv with bucketPut := fun n _ => if n = 1 then some "put failed" else none }

def sampleCtx : Context := ⟨"context canceled", []⟩

def aTxt : File := ⟨⟨"a.txt", 1, 420, 0, false⟩, [97], none⟩
def bTxt : File := ⟨⟨"b.txt", 1, 420, 0, false⟩, [98], none⟩
def cTxt : File := ⟨⟨"c.txt", 1, 420, 0, false⟩, [99], none⟩
def xJson : File := ⟨⟨"x.json", 2, 420, 0, false⟩, [123, 125], none⟩
def photo : File := ⟨⟨"photo.zzz", 4, 420, 0, false⟩, [255, 216, 255, 224], none⟩
def assets : File := ⟨⟨"assets", 0, 493, 0, true⟩, [], some "is a directory"⟩

/-- A valid configuration: all five required fields are populated. -/
def Populated (c : Config) : Prop :=
  c.AccessKey ≠ "" ∧ c.SecretKey ≠ "" ∧ c.Region.Name ≠ "" ∧ c.Name ≠ "" ∧ c.Perm ≠ ""

instance (c : Config) : Decidable (Populated c) := by
  unfold Populated; infer_instance

/-! ## Validator: lemmas -/

theorem missingFields_eq_filter (c : Config) :
    missingFields c = requiredFields.filter (fieldEmpty c) := by
  unfold missingFields requiredFields fieldEmpty
  by_cases h1 : c.AccessKey = "" <;> by_cases h2 : c.SecretKey = "" <;>
    by_cases h3 : c.Region.Name = "" <;> by_cases h4 : c.Name = "" <;>
    by_cases h5 : c.Perm = "" <;> simp [h1, h2, h3, h4, h5, List.filter]

theorem missingFields_eq_nil_iff (c : Config) :
    missingFields c = [] ↔
      c.AccessKey ≠ "" ∧ c.SecretKey ≠ "" ∧ c.Region.Name ≠ "" ∧ c.Name ≠ "" ∧ c.Perm ≠ "" := by
  unfold missingFields
  by_cases h1 : c.AccessKey = "" <;> by_cases h2 : c.SecretKey = "" <;>
    by_cases h3 : c.Region.Name = "" <;> by_cases h4 : c.Name = "" <;>
    by_cases h5 : c.Perm = "" <;> simp [h1, h2, h3, h4, h5]

theorem checkconfig_eq_none_iff (c : Config) :
    checkconfig c = none ↔ missingFields c = [] := by
  unfold checkconfig
  by_cases h : missingFields c = [] <;> simp [h]

theorem checkconfig_eq_none_of_populated {c : Config} (h : Populated c) :
    checkconfig c = none :=
  (checkconfig_eq_none_iff c).2 ((missingFields_eq_nil_iff c).2 h)

theorem requiredFields_nodup : requiredFields.Nodup := by
  simp [requiredFields]

theorem missingFields_ne_nil {c : Config}
    (h : c.AccessKey = "" ∨ c.SecretKey = "" ∨ c.Region.Name = "" ∨ c.Name = "" ∨ c.Perm = "") :
    missingFields c ≠ [] := by
  intro h0
  obtain ⟨h1, h2, h3, h4, h5⟩ := (missingFields_eq_nil_iff c).1 h0
  rcases h with h | h | h | h | h <;> contradiction

theorem checkconfig_of_missing {c : Config} (hne : missingFields c ≠ []) :
    checkconfig c =
      some ("Missing Required Field " ++ String.intercalate ", " (missingFields c) ++ " ") := by
  unfold checkconfig
  simp [hne]

/-! ## Stage: the loop, one `select` outcome at a time -/

theorem loop_closed (env : Env) (c : Config) (b : Bucket) (ctx : Context) (n : Nat)
    (rest : List Select) :
    loop env c b ctx n (.closed :: rest) = ⟨.returned none, [], rest⟩ := by
  simp [loop]

theorem loop_done (env : Env) (c : Config) (b : Bucket) (ctx : Context) (n : Nat)
    (rest : List Select) :
    loop env c b ctx n (.done :: rest) = ⟨.returned (some ctx.err), [], rest⟩ := by
  simp [loop]

theorem loop_recv_dir (env : Env) (c : Config) (b : Bucket) (ctx : Context) (n : Nat)
    (file : File) (rest : List Select) (hdir : file.info.isDir = true) :
    loop env c b ctx n (.recv file :: rest) =
      (loop env c b ctx n rest).after [.recv file] := by
  simp [loop, hdir]

theorem loop_recv_readErr (env : Env) (c : Config) (b : Bucket) (ctx : Context) (n : Nat)
    (file : File) (rest : List Select) (err : Error) (hdir : file.info.isDir = false)
    (hread : file.readErr = some err) :
    loop env c b ctx n (.recv file :: rest) =
      ⟨.returned (some err), [.recv file, .readAll file], rest⟩ := by
  simp [loop, hdir, ReadAll, hread]

theorem loop_recv_putErr (env : Env) (c : Config) (b : Bucket) (ctx : Context) (n : Nat)
    (file : File) (rest : List Select) (err : Error) (hdir : file.info.isDir = false)
    (hread : file.readErr = none) (hput : env.bucketPut n (callOn env c b file) = some err) :
    loop env c b ctx n (.recv file :: rest) =
      ⟨.returned (some err),
        [.recv file, .readAll file,
          .withValue "Content-Type" (contentTypeOf env file.info.name file.data),
          .infof ("Uploading " ++ file.info.name),
          .put (callOn env c b file) (some err)], rest⟩ := by
  simp only [callOn, ReadAll] at hput
  simp [loop, hdir, ReadAll, hread, hput, callOn]

theorem loop_recv_ok (env : Env) (c : Config) (b : Bucket) (ctx : Context) (n : Nat)
    (file : File) (rest : List Select) (hdir : file.info.isDir = false)
    (hread : file.readErr = none) (hput : env.bucketPut n (callOn env c b file) = none) :
    loop env c b ctx n (.recv file :: rest) =
      (loop env c b
        (ctx.WithValue "Content-Type" (contentTypeOf env file.info.name file.data))
        (n + 1) rest).after (uploadEvents env c b file) := by
  simp only [callOn, ReadAll] at hput
  simp [loop, hdir, ReadAll, hread, hput, callOn, uploadEvents, outFor]

theorem Put_of_populated (env : Env) (c : Config) (ctx : Context) (files : List Select)
    (hc : Populated c) : Put env c ctx files = loop env c (bucketOf c) ctx 0 files := by
  simp [Put, checkconfig_eq_none_of_populated hc]

/-! ## Stage: observations and runs over a prefix of successful items -/

@[simp] theorem after_outcome (evs : List Event) (r : Run) :
    (r.after evs).outcome = r.outcome := rfl

@[simp] theorem after_trace (evs : List Event) (r : Run) :
    (r.after evs).trace = evs ++ r.trace := rfl

@[simp] theorem after_pending (evs : List Event) (r : Run) :
    (r.after evs).pending = r.pending := rfl

theorem after_after (a b : List Event) (r : Run) :
    (r.after a).after b = r.after (b ++ a) := by
  simp [Run.after]

theorem sends_append (a b : List Event) : sends (a ++ b) = sends a ++ sends b := by
  simp [sends]

theorem puts_append (a b : List Event) : puts (a ++ b) = puts a ++ puts b := by
  simp [puts]

theorem okPuts_append (a b : List Event) : okPuts (a ++ b) = okPuts a ++ okPuts b := by
  simp [okPuts]

theorem reads_append (a b : List Event) : reads (a ++ b) = reads a ++ reads b := by
  simp [reads]

theorem recvs_append (a b : List Event) : recvs (a ++ b) = recvs a ++ recvs b := by
  simp [recvs]

theorem nonDirs_cons_dir (f : File) (items : List File) (hdir : f.info.isDir = true) :
    nonDirs (f :: items) = nonDirs items := by
  simp [nonDirs, hdir]

theorem nonDirs_cons_file (f : File) (items : List File) (hdir : f.info.isDir = false) :
    nonDirs (f :: items) = f :: nonDirs items := by
  simp [nonDirs, hdir]

theorem sends_itemEvents (env : Env) (c : Config) (b : Bucket) (items : List File) :
    sends (items.flatMap (itemEvents env c b)) = (nonDirs items).map outFor := by
  induction items with
  | nil => rfl
  | cons f items ih =>
    rw [List.flatMap_cons, sends_append, ih]
    by_cases hdir : f.info.isDir = true
    · simp [itemEvents, hdir, nonDirs, sends]
    · simp [itemEvents, hdir, nonDirs, sends, uploadEvents]

theorem puts_itemEvents (env : Env) (c : Config) (b : Bucket) (items : List File) :
    puts (items.flatMap (itemEvents env c b)) = (nonDirs items).map (callOn env c b) := by
  induction items with
  | nil => rfl
  | cons f items ih =>
    rw [List.flatMap_cons, puts_append, ih]
    by_cases hdir : f.info.isDir = true
    · simp [itemEvents, hdir, nonDirs, puts]
    · simp [itemEvents, hdir, nonDirs, puts, uploadEvents]

theorem reads_itemEvents (env : Env) (c : Config) (b : Bucket) (items : List File) :
    reads (items.flatMap (itemEvents env c b)) = nonDirs items := by
  induction items with
  | nil => rfl
  | cons f items ih =>
    rw [List.flatMap_cons, reads_append, ih]
    by_cases hdir : f.info.isDir = true
    · simp [itemEvents, hdir, nonDirs, reads]
    · simp [itemEvents, hdir, nonDirs, reads, uploadEvents]

theorem recvs_itemEvents (env : Env) (c : Config) (b : Bucket) (items : List File) :
    recvs (items.flatMap (itemEvents env c b)) = items := by
  induction items with
  | nil => rfl
  | cons f items ih =>
    rw [List.flatMap_cons, recvs_append, ih]
    by_cases hdir : f.info.isDir = true
    · simp [itemEvents, hdir, recvs]
    · simp [itemEvents, hdir, recvs, uploadEvents]

/-- Running the loop over items whose reads and uploads succeed: the loop
performs the events of each item in turn and goes on with what follows, in a
context that reports the same cancellation error. -/
theorem loop_prefix (env : Env) (c : Config) (b : Bucket) :
    ∀ (items : List File) (ctx : Context) (n : Nat) (tail : List Select),
      (∀ f ∈ items, f.info.isDir = false → f.readErr = none) →
      (∀ i (h : i < (nonDirs items).length),
        env.bucketPut (n + i) (callOn env c b ((nonDirs items)[i])) = none) →
      ∃ ctx' : Context, ctx'.err = ctx.err ∧
        loop env c b ctx n (items.map Select.recv ++ tail) =
          (loop env c b ctx' (n + (nonDirs items).length) tail).after
            (items.flatMap (itemEvents env c b))
  | [], ctx, n, tail, _, _ => ⟨ctx, rfl, by simp [nonDirs, Run.after]⟩
  | f :: items, ctx, n, tail, hread, hput => by
    by_cases hdir : f.info.isDir = true
    · have hnd := nonDirs_cons_dir f items hdir
      simp only [hnd] at hput
      obtain ⟨ctx', he, hl⟩ := loop_prefix env c b items ctx n tail
        (fun g hg => hread g (List.mem_cons_of_mem _ hg)) hput
      refine ⟨ctx', he, ?_⟩
      rw [List.map_cons, List.cons_append, loop_recv_dir env c b ctx n f _ hdir, hl,
        after_after, hnd, List.flatMap_cons]
      simp [itemEvents, hdir]
    · have hdir' : f.info.isDir = false := by simpa using hdir
      have hnd := nonDirs_cons_file f items hdir'
      simp only [hnd] at hput
      have h0 : env.bucketPut n (callOn env c b f) = none := by
        simpa using hput 0 (by simp)
      obtain ⟨ctx', he, hl⟩ := loop_prefix env c b items
        (ctx.WithValue "Content-Type" (contentTypeOf env f.info.name f.data)) (n + 1) tail
        (fun g hg => hread g (List.mem_cons_of_mem _ hg))
        (fun i h => by
          have := hput (i + 1) (by simpa using h)
          simpa [Nat.add_assoc, Nat.add_comm 1 i] using this)
      refine ⟨ctx', by rw [he]; rfl, ?_⟩
      rw [List.map_cons, List.cons_append,
        loop_recv_ok env c b ctx n f _ hdir' (hread f (List.mem_cons_self _ _) hdir') h0, hl,
        after_after, hnd, List.flatMap_cons]
      simp [itemEvents, hdir', Nat.add_assoc, Nat.add_comm 1]

/-! ## Stage: induction over the trace of any run -/

/-- A property of traces holds of the trace of every run of the loop as soon
as it holds of the empty trace and of the two failing endings, and is preserved
by a skipped directory and by an uploaded item put in front. -/
theorem loop_trace_induct (env : Env) (c : Config) (b : Bucket) (P : List Event → Prop)
    (hnil : P [])
    (hskip : ∀ f t, f.info.isDir = true → P t → P (Event.recv f :: t))
    (hreadErr : ∀ f, f.info.isDir = false → P [Event.recv f, Event.readAll f])
    (hputErr : ∀ f err, f.info.isDir = false → f.readErr = none →
      P [Event.recv f, Event.readAll f,
        Event.withValue "Content-Type" (contentTypeOf env f.info.name f.data),
        Event.infof ("Uploading " ++ f.info.name), Event.put (callOn env c b f) (some err)])
    (hok : ∀ f t, f.info.isDir = false → f.readErr = none → P t →
      P (uploadEvents env c b f ++ t)) :
    ∀ (files : List Select) (ctx : Context) (n : Nat), P (loop env c b ctx n files).trace
  | [], _, _ => by simpa [loop] using hnil
  | Select.closed :: rest, ctx, n => by rw [loop_closed]; exact hnil
  | Select.done :: rest, ctx, n => by rw [loop_done]; exact hnil
  | Select.recv f :: rest, ctx, n => by
    by_cases hdir : f.info.isDir = true
    · rw [loop_recv_dir env c b ctx n f rest hdir]
      exact hskip f _ hdir (loop_trace_induct env c b P hnil hskip hreadErr hputErr hok rest ctx n)
    · have hdir' : f.info.isDir = false := by simpa using hdir
      cases hread : f.readErr with
      | some err =>
        rw [loop_recv_readErr env c b ctx n f rest err hdir' hread]
        exact hreadErr f hdir'
      | none =>
        cases hput : env.bucketPut n (callOn env c b f) with
        | some err =>
          rw [loop_recv_putErr env c b ctx n f rest err hdir' hread hput]
          exact hputErr f err hdir' hread
        | none =>
          rw [loop_recv_ok env c b ctx n f rest hdir' hread hput]
          exact hok f _ hdir' hread
            (loop_trace_induct env c b P hnil hskip hreadErr hputErr hok rest _ (n + 1))

theorem follows_nil (Q : PutCall → File → Prop) (hist : List Event) : Follows Q hist [] := by
  intro pre f post h
  cases pre <;> simp at h

theorem follows_cons (Q : PutCall → File → Prop) (hist : List Event) (e : Event)
    (t : List Event)
    (he : ∀ f, e = Event.send f → ∃ pre' call, hist = pre' ++ [Event.put call none] ∧ Q call f)
    (ht : Follows Q (hist ++ [e]) t) : Follows Q hist (e :: t) := by
  intro pre f post h
  cases pre with
  | nil =>
    simp only [List.nil_append, List.cons.injEq] at h
    simpa using he f h.1
  | cons x pre =>
    simp only [List.cons_append, List.cons.injEq] at h
    obtain ⟨pre', call, hp, hq⟩ := ht pre f post h.2
    refine ⟨pre', call, ?_, hq⟩
    rw [← hp, ← h.1]
    simp

theorem balanced_nil (a b : Nat) (h1 : b ≤ a) (h2 : a ≤ b + 1) : Balanced a b [] := by
  intro pre post h
  have hpre : pre = [] := by
    cases pre with
    | nil => rfl
    | cons x pre => simp at h
  subst hpre
  simp [sends, puts]
  omega

theorem balanced_cons (a b : Nat) (e : Event) (t : List Event) (h1 : b ≤ a) (h2 : a ≤ b + 1)
    (ht : Balanced (a + (puts [e]).length) (b + (sends [e]).length) t) :
    Balanced a b (e :: t) := by
  intro pre post h
  cases pre with
  | nil =>
    simp [sends, puts]
    omega
  | cons x pre =>
    simp only [List.cons_append, List.cons.injEq] at h
    have hb := ht pre post h.2
    have hs : sends (x :: pre) = sends [e] ++ sends pre := by
      rw [← sends_append, ← h.1]; rfl
    have hp : puts (x :: pre) = puts [e] ++ puts pre := by
      rw [← puts_append, ← h.1]; rfl
    rw [hs, hp, List.length_append, List.length_append]
    omega

theorem balanced_shift (a b : Nat) (t : List Event) (ht : Balanced a b t) :
    Balanced (a + 1) (b + 1) t := by
  intro pre post h
  have hb := ht pre post h
  omega

/-- Sends follow uploads: invariant of every run of the loop. -/
theorem loop_follows (env : Env) (c : Config) (b : Bucket) (files : List Select)
    (ctx : Context) (n : Nat) (hist : List Event) :
    Follows (Uploads env c b) hist (loop env c b ctx n files).trace := by
  refine loop_trace_induct env c b (fun t => ∀ hist, Follows (Uploads env c b) hist t)
    ?_ ?_ ?_ ?_ ?_ files ctx n hist
  · exact fun hist => follows_nil _ hist
  · intro f t _ ih hist
    exact follows_cons _ _ _ _ (fun g hg => by cases hg) (ih _)
  · intro f _ hist
    exact follows_cons _ _ _ _ (fun g hg => by cases hg)
      (follows_cons _ _ _ _ (fun g hg => by cases hg) (follows_nil _ _))
  · intro f err _ _ hist
    exact follows_cons _ _ _ _ (fun g hg => by cases hg)
      (follows_cons _ _ _ _ (fun g hg => by cases hg)
        (follows_cons _ _ _ _ (fun g hg => by cases hg)
          (follows_cons _ _ _ _ (fun g hg => by cases hg)
            (follows_cons _ _ _ _ (fun g hg => by cases hg) (follows_nil _ _)))))
  · intro f t _ _ ih hist
    simp only [uploadEvents, List.cons_append, List.nil_append]
    refine follows_cons _ _ _ _ (fun g hg => by cases hg)
      (follows_cons _ _ _ _ (fun g hg => by cases hg)
        (follows_cons _ _ _ _ (fun g hg => by cases hg)
          (follows_cons _ _ _ _ (fun g hg => by cases hg)
            (follows_cons _ _ _ _ (fun g hg => by cases hg)
              (follows_cons _ _ _ _ ?_ (ih _))))))
    intro g hg
    cases hg
    exact ⟨_, callOn env c b f, rfl, rfl, rfl, rfl, rfl, rfl⟩

/-- Calls and sends alternate: invariant of every run of the loop. -/
theorem loop_balanced (env : Env) (c : Config) (b : Bucket) (files : List Select)
    (ctx : Context) (n : Nat) : Balanced 0 0 (loop env c b ctx n files).trace := by
  refine loop_trace_induct env c b (fun t => Balanced 0 0 t) ?_ ?_ ?_ ?_ ?_ files ctx n
  · exact balanced_nil 0 0 (Nat.le_refl _) (Nat.le_succ _)
  · intro f t _ ih
    exact balanced_cons 0 0 _ _ (Nat.le_refl _) (Nat.le_succ _) ih
  · intro f _
    exact balanced_cons 0 0 _ _ (Nat.le_refl _) (Nat.le_succ _)
      (balanced_cons 0 0 _ _ (Nat.le_refl _) (Nat.le_succ _)
        (balanced_nil 0 0 (Nat.le_refl _) (Nat.le_succ _)))
  · intro f err _ _
    exact balanced_cons 0 0 _ _ (Nat.le_refl _) (Nat.le_succ _)
      (balanced_cons 0 0 _ _ (Nat.le_refl _) (Nat.le_succ _)
        (balanced_cons 0 0 _ _ (Nat.le_refl _) (Nat.le_succ _)
          (balanced_cons 0 0 _ _ (Nat.le_refl _) (Nat.le_succ _)
            (balanced_cons 0 0 _ _ (Nat.le_refl _) (Nat.le_succ _)
              (balanced_nil 1 0 (Nat.zero_le _) (Nat.le_refl _))))))
  · intro f t _ _ ih
    simp only [uploadEvents, List.cons_append, List.nil_append]
    exact balanced_cons 0 0 _ _ (Nat.le_refl _) (Nat.le_succ _)
      (balanced_cons 0 0 _ _ (Nat.le_refl _) (Nat.le_succ _)
        (balanced_cons 0 0 _ _ (Nat.le_refl _) (Nat.le_succ _)
          (balanced_cons 0 0 _ _ (Nat.le_refl _) (Nat.le_succ _)
            (balanced_cons 0 0 _ _ (Nat.le_refl _) (Nat.le_succ _)
              (balanced_cons 1 0 _ _ (Nat.zero_le _) (Nat.le_refl _)
                (balanced_shift 0 0 t ih))))))

/-- The successful calls are those of the items sent: invariant of every run
of the loop. -/
theorem loop_okPuts (env : Env) (c : Config) (b : Bucket) (files : List Select)
    (ctx : Context) (n : Nat) :
    okPuts (loop env c b ctx n files).trace
      = (sends (loop env c b ctx n files).trace).map (callOn env c b) := by
  refine loop_trace_induct env c b (fun t => okPuts t = (sends t).map (callOn env c b))
    ?_ ?_ ?_ ?_ ?_ files ctx n
  · rfl
  · intro f t _ ih
    simpa [okPuts, sends] using ih
  · intro f _
    simp [okPuts, sends]
  · intro f err _ _
    simp [okPuts, sends]
  · intro f t _ _ ih
    rw [okPuts_append, sends_append, List.map_append, ih]
    simp [okPuts, sends, uploadEvents, callOn, outFor, NewFile, ReadAll]

/-- Every call is the call of a received item that is not a directory:
invariant of every run of the loop. -/
theorem loop_puts_of_files (env : Env) (c : Config) (b : Bucket) (files : List Select)
    (ctx : Context) (n : Nat) :
    ∀ call ∈ puts (loop env c b ctx n files).trace,
      ∃ file ∈ recvs (loop env c b ctx n files).trace,
        file.info.isDir = false ∧ call = callOn env c b file := by
  refine loop_trace_induct env c b
    (fun t => ∀ call ∈ puts t, ∃ file ∈ recvs t, file.info.isDir = false ∧
      call = callOn env c b file) ?_ ?_ ?_ ?_ ?_ files ctx n
  · intro call h
    simp [puts] at h
  · intro f t _ ih call h
    obtain ⟨file, hm, hd, hc⟩ := ih call (by simpa [puts] using h)
    exact ⟨file, by simpa [recvs] using Or.inr hm, hd, hc⟩
  · intro f _ call h
    simp [puts] at h
  · intro f err hd _ call h
    have hc : call = callOn env c b f := by simpa [puts] using h
    exact ⟨f, by simp [recvs], hd, hc⟩
  · intro f t hd _ ih call h
    rw [puts_append] at h
    rcases List.mem_append.1 h with h | h
    · have hc : call = callOn env c b f := by simpa [puts, uploadEvents] using h
      exact ⟨f, by simp [recvs, uploadEvents], hd, hc⟩
    · obtain ⟨file, hm, hd', hc⟩ := ih call h
      exact ⟨file, by rw [recvs_append]; exact List.mem_append.2 (Or.inr hm), hd', hc⟩

/-! ## Validator: claims -/

/-- Claim C1, as amended: for every configuration with at least one of the five
required fields empty, `checkconfig` returns an error whose message is exactly
"Missing Required Field ", the names of the missing fields joined by ", ", and
a trailing space; the names listed are those of the empty fields among
AccessKey, SecretKey, Region, Name, Perm, each at most once, in that order, and
no name of a populated field is listed. -/
theorem checkconfig_message (c : Config)
    (h : c.AccessKey = "" ∨ c.SecretKey = "" ∨ c.Region.Name = "" ∨ c.Name = "" ∨ c.Perm = "") :
    checkconfig c =
        some ("Missing Required Field " ++ String.intercalate ", " (missingFields c) ++ " ") ∧
      (missingFields c).Sublist requiredFields ∧
      (missingFields c).Nodup ∧
      ("AccessKey" ∈ missingFields c ↔ c.AccessKey = "") ∧
      ("SecretKey" ∈ missingFields c ↔ c.SecretKey = "") ∧
      ("Region" ∈ missingFields c ↔ c.Region.Name = "") ∧
      ("Name" ∈ missingFields c ↔ c.Name = "") ∧
      ("Perm" ∈ missingFields c ↔ c.Perm = "") := by
  have hsub : (missingFields c).Sublist requiredFields := by
    rw [missingFields_eq_filter]; exact List.filter_sublist _
  refine ⟨checkconfig_of_missing (missingFields_ne_nil h), hsub,
    hsub.nodup requiredFields_nodup, ?_⟩
  · unfold missingFields
    by_cases h1 : c.AccessKey = "" <;> by_cases h2 : c.SecretKey = "" <;>
      by_cases h3 : c.Region.Name = "" <;> by_cases h4 : c.Name = "" <;>
      by_cases h5 : c.Perm = "" <;> simp [h1, h2, h3, h4, h5]

/-- Concrete instance: a configuration missing `SecretKey` and `Name`. -/
theorem checkconfig_message_witness :
    (partialConfig.AccessKey = "" ∨ partialConfig.SecretKey = "" ∨
        partialConfig.Region.Name = "" ∨ partialConfig.Name = "" ∨ partialConfig.Perm = "") ∧
      checkconfig partialConfig = some "Missing Required Field SecretKey, Name " ∧
      missingFields partialConfig = ["SecretKey", "Name"] :=
  ⟨Or.inr (Or.inl rfl),
    by rw [(checkconfig_message partialConfig (Or.inr (Or.inl rfl))).1]; decide,
    by decide⟩

/-- Claim C1 as stated fails: for the fully populated `sampleConfig` the
validator returns no error at all, hence no error with the stated message. -/
theorem checkconfig_sampleConfig_no_error :
    checkconfig sampleConfig = none ∧
      checkconfig sampleConfig ≠
        some ("Missing Required Field " ++
          String.intercalate ", " (missingFields sampleConfig) ++ " ") := by
  have h : checkconfig sampleConfig = none := by decide
  exact ⟨h, by rw [h]; exact fun h0 => Option.noConfusion h0⟩

/-- Claim C2: `checkconfig` returns no error if and only if AccessKey,
SecretKey, Region (through its Name), Name and Perm are all non-empty. -/
theorem checkconfig_nil_iff (c : Config) :
    checkconfig c = none ↔
      c.AccessKey ≠ "" ∧ c.SecretKey ≠ "" ∧ c.Region.Name ≠ "" ∧ c.Name ≠ "" ∧ c.Perm ≠ "" :=
  (checkconfig_eq_none_iff c).trans (missingFields_eq_nil_iff c)

/-! ## Stage: claims on whole runs -/

/-- Claim C3: for a valid configuration and a finite sequence of N
non-directory items on the inbound stream (then closed), with every read and
every upload succeeding and no cancellation, the stage returns `nil` and sends
exactly N items, in the order received, the k-th with the content and the
metadata of the k-th input. -/
theorem Put_forwards_every_file (env : Env) (c : Config) (ctx : Context) (items : List File)
    (hc : Populated c)
    (hfiles : ∀ f ∈ items, f.info.isDir = false)
    (hread : ∀ f ∈ items, f.readErr = none)
    (hput : ∀ i (h : i < items.length), env.bucketPut i (callFor env c items[i]) = none) :
    (Put env c ctx (inbound items)).outcome = .returned none ∧
      sends (Put env c ctx (inbound items)).trace = items.map outFor ∧
      (sends (Put env c ctx (inbound items)).trace).length = items.length ∧
      ∀ k (h : k < items.length), ∃ out : File,
        (sends (Put env c ctx (inbound items)).trace)[k]? = some out ∧
          out.data = items[k].data ∧ out.info = items[k].info := by
  have hnd : nonDirs items = items := by
    unfold nonDirs
    rw [List.filter_eq_self]
    intro f hf
    simp [hfiles f hf]
  obtain ⟨ctx', _, hl⟩ := loop_prefix env c (bucketOf c) items ctx 0 [Select.closed]
    (fun f hf _ => hread f hf)
    (fun i h => by
      have h2 := hput i (by simpa [hnd] using h)
      simpa [hnd, callFor] using h2)
  have hs : sends (Put env c ctx (inbound items)).trace = items.map outFor := by
    rw [Put_of_populated env c ctx _ hc, inbound, hl, loop_closed]
    simp [sends_itemEvents, hnd]
  refine ⟨?_, hs, by rw [hs, List.length_map], ?_⟩
  · rw [Put_of_populated env c ctx _ hc, inbound, hl, loop_closed]
    rfl
  · intro k h
    refine ⟨outFor items[k], ?_, rfl, rfl⟩
    rw [hs]
    simp [h]

/-- Concrete instance: three files are forwarded in order. -/
theorem Put_forwards_every_file_witness :
    Populated sampleConfig ∧
      (Put sampleEnv sampleConfig sampleCtx (inbound [aTxt, bTxt, cTxt])).outcome
        = .returned none ∧
      sends (Put sampleEnv sampleConfig sampleCtx (inbound [aTxt, bTxt, cTxt])).trace
        = [aTxt, bTxt, cTxt] :=
  have h := Put_forwards_every_file sampleEnv sampleConfig sampleCtx [aTxt, bTxt, cTxt]
    (by decide) (by decide) (by decide) (fun _ _ => rfl)
  ⟨by decide, h.1, h.2.1⟩

/-- Claim C4: for a valid configuration and a finite mixed sequence of
directory and non-directory items (then closed), reads and uploads succeeding
and no cancellation, the stage sends exactly one item per non-directory item,
in input order; content is read and a put-object call is made for the
non-directory items only. -/
theorem Put_skips_directories (env : Env) (c : Config) (ctx : Context) (items : List File)
    (hc : Populated c)
    (hread : ∀ f ∈ items, f.info.isDir = false → f.readErr = none)
    (hput : ∀ i (h : i < (nonDirs items).length),
      env.bucketPut i (callFor env c (nonDirs items)[i]) = none) :
    (Put env c ctx (inbound items)).outcome = .returned none ∧
      sends (Put env c ctx (inbound items)).trace = (nonDirs items).map outFor ∧
      (sends (Put env c ctx (inbound items)).trace).length
        = items.countP (fun f => !f.info.isDir) ∧
      puts (Put env c ctx (inbound items)).trace = (nonDirs items).map (callFor env c) ∧
      reads (Put env c ctx (inbound items)).trace = nonDirs items ∧
      ∀ d ∈ items, d.info.isDir = true →
        d ∉ reads (Put env c ctx (inbound items)).trace := by
  obtain ⟨ctx', _, hl⟩ := loop_prefix env c (bucketOf c) items ctx 0 [Select.closed] hread
    (fun i h => by simpa [callFor] using hput i h)
  have ht : (Put env c ctx (inbound items)).trace
      = items.flatMap (itemEvents env c (bucketOf c)) := by
    rw [Put_of_populated env c ctx _ hc, inbound, hl, loop_closed]
    simp
  refine ⟨?_, ?_, ?_, ?_, ?_, ?_⟩
  · rw [Put_of_populated env c ctx _ hc, inbound, hl, loop_closed]
    rfl
  · rw [ht, sends_itemEvents]
  · rw [ht, sends_itemEvents, List.length_map, nonDirs, List.countP_eq_length_filter]
  · rw [ht, puts_itemEvents]
    rfl
  · rw [ht, reads_itemEvents]
  · intro d _ hdir
    rw [ht, reads_itemEvents]
    simp [nonDirs, hdir]

/-- Concrete instance: a directory between two files. -/
theorem Put_skips_directories_witness :
    Populated sampleConfig ∧
      sends (Put sampleEnv sampleConfig sampleCtx (inbound [aTxt, assets, bTxt])).trace
        = [aTxt, bTxt] ∧
      reads (Put sampleEnv sampleConfig sampleCtx (inbound [aTxt, assets, bTxt])).trace
        = [aTxt, bTxt] :=
  have h := Put_skips_directories sampleEnv sampleConfig sampleCtx [aTxt, assets, bTxt]
    (by decide) (by decide) (fun _ _ => rfl)
  ⟨by decide, h.2.1, h.2.2.2.2.1⟩

/-- Claim C5: for a valid configuration, when the upload call first fails on
the non-directory item following the items `before` (whose reads and uploads
succeeded), the stage returns exactly that upload error; only the
non-directory items of `before` were sent, nothing is sent for the failing
item, and no later item is received. -/
theorem Put_stops_at_failed_upload (env : Env) (c : Config) (ctx : Context)
    (before : List File) (file : File) (later : List File) (tail : List Select) (err : Error)
    (hc : Populated c)
    (hread : ∀ f ∈ before, f.info.isDir = false → f.readErr = none)
    (hput : ∀ i (h : i < (nonDirs before).length),
      env.bucketPut i (callFor env c (nonDirs before)[i]) = none)
    (hdir : file.info.isDir = false)
    (hfile : file.readErr = none)
    (hfail : env.bucketPut (nonDirs before).length (callFor env c file) = some err) :
    (Put env c ctx ((before ++ file :: later).map Select.recv ++ tail)).outcome
        = .returned (some err) ∧
      sends (Put env c ctx ((before ++ file :: later).map Select.recv ++ tail)).trace
        = (nonDirs before).map outFor ∧
      recvs (Put env c ctx ((before ++ file :: later).map Select.recv ++ tail)).trace
        = before ++ [file] ∧
      (Put env c ctx ((before ++ file :: later).map Select.recv ++ tail)).pending
        = later.map Select.recv ++ tail := by
  obtain ⟨ctx', _, hl⟩ := loop_prefix env c (bucketOf c) before ctx 0
    (Select.recv file :: (later.map Select.recv ++ tail)) hread
    (fun i h => by simpa [callFor] using hput i h)
  have hrun : Put env c ctx ((before ++ file :: later).map Select.recv ++ tail)
      = (⟨.returned (some err),
          [.recv file, .readAll file,
            .withValue "Content-Type" (contentTypeOf env file.info.name file.data),
            .infof ("Uploading " ++ file.info.name),
            .put (callOn env c (bucketOf c) file) (some err)],
          later.map Select.recv ++ tail⟩ : Run).after
          (before.flatMap (itemEvents env c (bucketOf c))) := by
    rw [Put_of_populated env c ctx _ hc]
    have hsplit : (before ++ file :: later).map Select.recv ++ tail
        = before.map Select.recv ++ (Select.recv file :: (later.map Select.recv ++ tail)) := by
      simp
    rw [hsplit, hl, loop_recv_putErr env c (bucketOf c) ctx' _ file _ err hdir hfile
      (by simpa [callFor] using hfail)]
  rw [hrun]
  refine ⟨rfl, ?_, ?_, rfl⟩
  · rw [after_trace, sends_append, sends_itemEvents]
    simp [sends]
  · rw [after_trace, recvs_append, recvs_itemEvents]
    simp [recvs]

/-- Concrete instance: of a.txt, b.txt, c.txt the upload of b.txt fails, so
only a.txt is sent and c.txt is never received. -/
theorem Put_stops_at_failed_upload_witness :
    Populated sampleConfig ∧
      (Put failingEnv sampleConfig sampleCtx (inbound [aTxt, bTxt, cTxt])).outcome
        = .returned (some "put failed") ∧
      sends (Put failingEnv sampleConfig sampleCtx (inbound [aTxt, bTxt, cTxt])).trace
        = [aTxt] ∧
      (Put failingEnv sampleConfig sampleCtx (inbound [aTxt, bTxt, cTxt])).pending
        = [Select.recv cTxt, Select.closed] :=
  have h := Put_stops_at_failed_upload failingEnv sampleConfig sampleCtx [aTxt] bTxt [cTxt]
    [Select.closed] "put failed" (by decide) (by decide) (by decide) rfl rfl rfl
  ⟨by decide, h.1, h.2.1, h.2.2.2⟩

/-- Claim C6: for a configuration missing at least one required field, the
stage returns the error of `checkconfig` before any work begins: it performs no
effect at all (nothing is received, uploaded or sent) and leaves the inbound
stream untouched, whatever the inbound stream and the context hold. -/
theorem Put_rejects_invalid_config (env : Env) (c : Config) (ctx : Context)
    (files : List Select)
    (h : c.AccessKey = "" ∨ c.SecretKey = "" ∨ c.Region.Name = "" ∨ c.Name = "" ∨ c.Perm = "") :
    (∃ err, checkconfig c = some err) ∧
      (Put env c ctx files).outcome = .returned (checkconfig c) ∧
      (Put env c ctx files).trace = [] ∧
      recvs (Put env c ctx files).trace = [] ∧
      puts (Put env c ctx files).trace = [] ∧
      sends (Put env c ctx files).trace = [] ∧
      (Put env c ctx files).pending = files := by
  have he := checkconfig_of_missing (missingFields_ne_nil h)
  simp [Put, he, recvs, puts, sends]

/-- Concrete instance: items are waiting but the configuration lacks two
fields. -/
theorem Put_rejects_invalid_config_witness :
    (partialConfig.AccessKey = "" ∨ partialConfig.SecretKey = "" ∨
        partialConfig.Region.Name = "" ∨ partialConfig.Name = "" ∨ partialConfig.Perm = "") ∧
      (Put sampleEnv partialConfig sampleCtx (inbound [aTxt, bTxt])).outcome
        = .returned (checkconfig partialConfig) ∧
      (Put sampleEnv partialConfig sampleCtx (inbound [aTxt, bTxt])).pending
        = inbound [aTxt, bTxt] :=
  have h := Put_rejects_invalid_config sampleEnv partialConfig sampleCtx (inbound [aTxt, bTxt])
    (Or.inr (Or.inl rfl))
  ⟨Or.inr (Or.inl rfl), h.2.1, h.2.2.2.2.2.2⟩

/-- Claim C7: for a valid configuration, if the inbound stream is found closed
at once and the context is not done, the stage returns `nil`, makes no
put-object call and sends nothing. -/
theorem Put_closed_at_once (env : Env) (c : Config) (ctx : Context) (rest : List Select)
    (hc : Populated c) :
    (Put env c ctx (Select.closed :: rest)).outcome = .returned none ∧
      puts (Put env c ctx (Select.closed :: rest)).trace = [] ∧
      sends (Put env c ctx (Select.closed :: rest)).trace = [] ∧
      (Put env c ctx (inbound [])).outcome = .returned none ∧
      (Put env c ctx (inbound [])).trace = [] := by
  rw [inbound, List.map_nil, List.nil_append, Put_of_populated env c ctx _ hc,
    Put_of_populated env c ctx _ hc, loop_closed, loop_closed]
  exact ⟨rfl, rfl, rfl, rfl, rfl⟩

/-- Concrete instance: an inbound stream closed with no item. -/
theorem Put_closed_at_once_witness :
    Populated sampleConfig ∧
      (Put sampleEnv sampleConfig sampleCtx (inbound [])).outcome = .returned none ∧
      (Put sampleEnv sampleConfig sampleCtx (inbound [])).trace = [] :=
  have h := Put_closed_at_once sampleEnv sampleConfig sampleCtx [] (by decide)
  ⟨by decide, h.2.2.2.1, h.2.2.2.2⟩

/-- Claim C8: for a valid configuration, if the context is found done before
any item is received, the stage returns the context's cancellation error
`ctx.Err()`, makes no put-object call and sends nothing. -/
theorem Put_cancelled_at_once (env : Env) (c : Config) (ctx : Context) (rest : List Select)
    (hc : Populated c) :
    (Put env c ctx (Select.done :: rest)).outcome = .returned (some ctx.err) ∧
      puts (Put env c ctx (Select.done :: rest)).trace = [] ∧
      sends (Put env c ctx (Select.done :: rest)).trace = [] ∧
      recvs (Put env c ctx (Select.done :: rest)).trace = [] := by
  rw [Put_of_populated env c ctx _ hc, loop_done]
  exact ⟨rfl, rfl, rfl, rfl⟩

/-- Concrete instance: an item is ready but cancellation wins the `select`. -/
theorem Put_cancelled_at_once_witness :
    Populated sampleConfig ∧
      (Put sampleEnv sampleConfig sampleCtx (Select.done :: inbound [aTxt])).outcome
        = .returned (some "context canceled") ∧
      sends (Put sampleEnv sampleConfig sampleCtx (Select.done :: inbound [aTxt])).trace = [] :=
  have h := Put_cancelled_at_once sampleEnv sampleConfig sampleCtx (inbound [aTxt]) (by decide)
  ⟨by decide, h.1, h.2.2.1⟩

/-! ## Stage: claims on every run -/

/-- Claim C9: every put-object call of a run is made for a received item that
is not a directory, and its content type is the registry's type for the
extension of the item's name when that is non-empty, and otherwise the type
sniffed from the item's content; it is not empty as long as the sniffer, which
always answers with some type, does not answer with the empty string.  A name
such as "x.json" resolves through the registry when the registry knows its
extension ".json". -/
theorem Put_content_type (env : Env) (c : Config) (ctx : Context) (files : List Select)
    (call : PutCall) (h : call ∈ puts (Put env c ctx files).trace) :
    (∃ file ∈ recvs (Put env c ctx files).trace,
      file.info.isDir = false ∧ call.key = file.info.name ∧ call.body = file.data ∧
        (env.TypeByExtension (Ext file.info.name) ≠ "" →
          call.contentType = env.TypeByExtension (Ext file.info.name)) ∧
        (env.TypeByExtension (Ext file.info.name) = "" →
          call.contentType = env.DetectContentType file.data) ∧
        (env.DetectContentType file.data ≠ "" → call.contentType ≠ "")) ∧
      (env.TypeByExtension ".json" ≠ "" →
        ∀ content, contentTypeOf env "x.json" content = env.TypeByExtension ".json") := by
  constructor
  · cases hc : checkconfig c with
    | some err => simp [Put, hc, puts] at h
    | none =>
      have hrun : Put env c ctx files = loop env c (bucketOf c) ctx 0 files := by
        simp [Put, hc]
      rw [hrun] at h ⊢
      obtain ⟨file, hm, hd, hcall⟩ := loop_puts_of_files env c (bucketOf c) files ctx 0 call h
      subst hcall
      refine ⟨file, hm, hd, rfl, rfl, ?_, ?_, ?_⟩
      · intro hne
        simp [callOn, contentTypeOf, ReadAll, hne]
      · intro he
        simp [callOn, contentTypeOf, ReadAll, he]
      · intro hne
        by_cases he : env.TypeByExtension (Ext file.info.name) = ""
        · simpa [callOn, contentTypeOf, ReadAll, he] using hne
        · simp [callOn, contentTypeOf, ReadAll, he]
  · intro hne content
    have hext : Ext "x.json" = ".json" := by decide
    simp [contentTypeOf, hext, hne]

/-- Concrete instance: "x.json" resolves through the registry, and "photo.zzz",
of unknown extension and starting with the JPEG magic bytes, through the
sniffer. -/
theorem Put_content_type_witness :
    callFor sampleEnv sampleConfig photo
        ∈ puts (Put sampleEnv sampleConfig sampleCtx (inbound [xJson, photo])).trace ∧
      (callFor sampleEnv sampleConfig photo).contentType = "image/jpeg" ∧
      (callFor sampleEnv sampleConfig xJson).contentType = "application/json" ∧
      ∃ file ∈ recvs (Put sampleEnv sampleConfig sampleCtx (inbound [xJson, photo])).trace,
        file.info.isDir = false ∧
          (callFor sampleEnv sampleConfig photo).key = file.info.name ∧
          (callFor sampleEnv sampleConfig photo).body = file.data ∧
          (sampleEnv.TypeByExtension (Ext file.info.name) ≠ "" →
            (callFor sampleEnv sampleConfig photo).contentType
              = sampleEnv.TypeByExtension (Ext file.info.name)) ∧
          (sampleEnv.TypeByExtension (Ext file.info.name) = "" →
            (callFor sampleEnv sampleConfig photo).contentType
              = sampleEnv.DetectContentType file.data) ∧
          (sampleEnv.DetectContentType file.data ≠ "" →
            (callFor sampleEnv sampleConfig photo).contentType ≠ "") :=
  ⟨by decide, by decide, by decide,
    (Put_content_type sampleEnv sampleConfig sampleCtx (inbound [xJson, photo])
      (callFor sampleEnv sampleConfig photo) (by decide)).1⟩

/-- Claim C10: in every run of the stage, each item sent on the outbound stream
comes right after a successful put-object call whose key is the item's name,
whose body is the item's content, whose content type is the resolved content
type and whose access policy is the configured `Perm`; the successful calls
are, one for one and in order, the calls of the items sent; and at every point
of the run the number of put-object calls made is at least the number of items
sent and at most one more. -/
theorem Put_sends_follow_uploads (env : Env) (c : Config) (ctx : Context)
    (files : List Select) :
    (∀ pre f post, (Put env c ctx files).trace = pre ++ Event.send f :: post →
      ∃ pre' call, pre = pre' ++ [Event.put call none] ∧
        call.key = f.info.name ∧ call.body = f.data ∧
        call.contentType = contentTypeOf env f.info.name f.data ∧ call.perm = c.Perm) ∧
      okPuts (Put env c ctx files).trace
        = (sends (Put env c ctx files).trace).map (callFor env c) ∧
      (∀ pre post, (Put env c ctx files).trace = pre ++ post →
        (sends pre).length ≤ (puts pre).length ∧
          (puts pre).length ≤ (sends pre).length + 1) := by
  cases hc : checkconfig c with
  | some err =>
    have ht : (Put env c ctx files).trace = [] := by simp [Put, hc]
    rw [ht]
    refine ⟨?_, rfl, ?_⟩
    · intro pre f post h
      cases pre <;> simp at h
    · intro pre post h
      have hb := balanced_nil 0 0 (Nat.le_refl _) (Nat.le_succ _) pre post h
      omega
  | none =>
    have hrun : Put env c ctx files = loop env c (bucketOf c) ctx 0 files := by
      simp [Put, hc]
    rw [hrun]
    refine ⟨?_, loop_okPuts env c (bucketOf c) files ctx 0, ?_⟩
    · intro pre f post h
      obtain ⟨pre', call, hp, _, hk, hb, ht, hperm⟩ :=
        loop_follows env c (bucketOf c) files ctx 0 [] pre f post h
      exact ⟨pre', call, by simpa using hp, hk, hb, ht, hperm⟩
    · intro pre post h
      have hb := loop_balanced env c (bucketOf c) files ctx 0 pre post h
      omega

/-- Concrete instance: in the run over a.txt, a directory and b.txt, the item
sent for b.txt comes right after its upload. -/
theorem Put_sends_follow_uploads_witness :
    ∃ pre' call,
      Event.recv aTxt :: Event.readAll aTxt ::
          Event.withValue "Content-Type" "text/plain; charset=utf-8" ::
          Event.infof "Uploading a.txt" :: Event.put (callFor sampleEnv sampleConfig aTxt) none ::
          Event.send aTxt :: Event.recv assets ::
          (uploadEvents sampleEnv sampleConfig (bucketOf sampleConfig) bTxt).dropLast
        = pre' ++ [Event.put call none] ∧
        call.key = "b.txt" ∧ call.body = [98] ∧
        call.contentType = "text/plain; charset=utf-8" ∧ call.perm = PublicRead :=
  (Put_sends_follow_uploads sampleEnv sampleConfig sampleCtx
    (inbound [aTxt, assets, bTxt])).1 _ bTxt [] (by decide)

end S3
